import Mathlib

/-!
Shallow embedding of the window-sticker extraction pipeline of
`src/sticker_to_ad.py` (functions `normalize`, `is_price_token`, `extract_price`,
`looks_like_junk`, `is_hard_stop_detail`, `extract_vin_from_text`,
`clean_option_line`, `choose_hashtags`, `extract_spans_pdfminer`,
`extract_option_groups_from_ocr`, `is_allowed_stellantis_brand`, `build_ad`,
`extract_option_groups_from_spans`, `extract_paid_options_from_text`, and the
option-extraction control flow of `main`).

Text is modelled as `List Char`.  Python regular expressions are modelled by
explicit scanning functions whose search order (leftmost match, greedy
quantifiers with backtracking) follows the `re` module on the character
classes actually used.  Python `\s` is modelled by the ASCII whitespace
characters plus NBSP (the characters this pipeline can see), `\w` by ASCII
`[A-Za-z0-9_]`, `str.lower`/`str.upper` by the ASCII + Latin-1 single-character
case maps.  Coordinates are modelled as `ℤ` (every threshold the source
compares against is integral, and float subtleties are outside the claims),
bold ratios as `ℚ`.
-/

namespace StickerToAd

abbrev Str : Type := List Char

def lit (s : String) : Str := s.toList

/-- Whitespace as Python `\s` sees the characters used by this pipeline
(ASCII whitespace plus NBSP; the source's `normalize` first maps NBSP to a
plain space, which is equivalent to treating NBSP as whitespace). -/
def isWs (c : Char) : Bool :=
  c = ' ' || c = '\t' || c = '\n' || c = '\r' || c = '\x0b' || c = '\x0c' || c = '\u00A0'

/-- Python `\w` on ASCII text: letters, digits, underscore. -/
def wordChar (c : Char) : Bool := c.isAlpha || c.isDigit || c = '_'

def wsToSpace (s : Str) : Str := s.map (fun c => if isWs c then ' ' else c)

/-- Collapse runs of consecutive spaces to a single space. -/
def squeeze : Str → Str
  | [] => []
  | [c] => [c]
  | a :: b :: rest =>
    if a = ' ' && b = ' ' then squeeze (b :: rest) else a :: squeeze (b :: rest)

def dropTrailWs (s : Str) : Str := (s.reverse.dropWhile isWs).reverse

/-- Python `str.strip()`. -/
def stripWs (s : Str) : Str := dropTrailWs (s.dropWhile isWs)

/-- Source `normalize`: replace NBSP by a space, `re.sub(r"\s+", " ", s)`, strip. -/
def normalize (s : Str) : Str := stripWs (squeeze (wsToSpace s))

/-- Python ASCII/Latin-1 `str.lower` as a character map. -/
def pyLower (c : Char) : Char :=
  if 'A' ≤ c ∧ c ≤ 'Z' then Char.ofNat (c.toNat + 32)
  else if 0xC0 ≤ c.toNat ∧ c.toNat ≤ 0xDE ∧ c.toNat ≠ 0xD7 then Char.ofNat (c.toNat + 32)
  else c

/-- Python ASCII/Latin-1 `str.upper` as a character map. -/
def pyUpper (c : Char) : Char :=
  if 'a' ≤ c ∧ c ≤ 'z' then Char.ofNat (c.toNat - 32)
  else if 0xE0 ≤ c.toNat ∧ c.toNat ≤ 0xFE ∧ c.toNat ≠ 0xF7 then Char.ofNat (c.toNat - 32)
  else c

def lowerStr (s : Str) : Str := s.map pyLower

def upperStr (s : Str) : Str := s.map pyUpper

/-- `strStarts pat s` holds when `pat` is a prefix of `s` (Python `str.startswith`). -/
def strStarts : Str → Str → Bool
  | [], _ => true
  | _ :: _, [] => false
  | p :: ps, c :: cs => p = c && strStarts ps cs

/-- `containsStr pat s` holds when `pat` occurs as a contiguous substring of `s`
(Python `pat in s`). -/
def containsStr (pat : Str) : Str → Bool
  | [] => strStarts pat []
  | c :: cs => strStarts pat (c :: cs) || containsStr pat cs

def hasDigit (s : Str) : Bool := s.any Char.isDigit

/-- Characters kept by `re.sub(r"[^A-Za-zÀ-ÿ]", "", ...)` in the source's
"price-only" letter count. -/
def isLetterLatin (c : Char) : Bool :=
  c.isAlpha || (0xC0 ≤ c.toNat && c.toNat ≤ 0xFF)

def latinCount (s : Str) : Nat := (s.filter isLetterLatin).length

/-- Separator class `[,\s]` of the money pattern. -/
def sepChar (c : Char) : Bool := c = ',' || isWs c

/-- Take up to `n` leading digits (the greedy `\d{1,3}` never needs to backtrack in
the money pattern because everything after it is optional). -/
def takeDigitsUpTo : Nat → Str → Str × Str
  | 0, s => ([], s)
  | _ + 1, [] => ([], [])
  | n + 1, c :: rest =>
    if c.isDigit then
      let (d, r) := takeDigitsUpTo n rest
      (c :: d, r)
    else ([], c :: rest)

/-- Greedy `(?:[,\s]\d{3})*`: consume a separator plus exactly three digits as
often as possible. -/
def repsParse : Str → Str × Str
  | a :: b :: c :: d :: rest =>
    if sepChar a && b.isDigit && c.isDigit && d.isDigit then
      let (r, rest') := repsParse rest
      (a :: b :: c :: d :: r, rest')
    else ([], a :: b :: c :: d :: rest)
  | s => ([], s)

/-- Greedy `(?:[.,]\d{2})?`. -/
def decParse : Str → Str × Str
  | a :: b :: c :: rest =>
    if (a = '.' || a = ',') && b.isDigit && c.isDigit then ([a, b, c], rest)
    else ([], a :: b :: c :: rest)
  | s => ([], s)

/-- Group 1 of the money pattern `(\d{1,3}(?:[,\s]\d{3})*(?:[.,]\d{2})?)` matched
greedily at the head of `s` (which starts with a digit), together with the rest. -/
def numParseAt (s : Str) : Str × Str :=
  let (d1, r1) := takeDigitsUpTo 3 s
  let (rp, r2) := repsParse r1
  let (dc, r3) := decParse r2
  (d1 ++ rp ++ dc, r3)

/-- Leftmost match of `re.search` for the source's money pattern
`(?:\$\s*)?(\d{1,3}(?:[,\s]\d{3})*(?:[.,]\d{2})?)\s*\$?`, returning group 1.
A match can only start at a digit, or at a `$` whose first non-space successor
is a digit. -/
def findNum : Str → Option Str
  | [] => none
  | c :: rest =>
    if c.isDigit then some (numParseAt (c :: rest)).1
    else if c = '$' then
      match (rest.dropWhile isWs).head? with
      | some d =>
        if d.isDigit then some (numParseAt (rest.dropWhile isWs)).1
        else findNum rest
      | none => findNum rest
    else findNum rest

/-- Source `extract_price`: normalize, search the money pattern, and format
group 1 with internal spaces removed and a trailing `$`. -/
def extract_price (s0 : Str) : Option Str :=
  let s := normalize s0
  match findNum s with
  | none => none
  | some g =>
    let raw := (normalize g).filter (fun c => c ≠ ' ')
    if raw = [] then none else some (raw ++ lit " $")

/-- Tail of the `is_price_token` pattern after the leading `\b\d`: either a word
boundary holds here (the trailing `\s*\$?` always matches), or one more
character of the class `[\d\s.,]` is consumed. -/
def iptTail (last : Char) : Str → Bool
  | [] => wordChar last
  | c :: rest =>
    (wordChar last != wordChar c) ||
    ((c.isDigit || isWs c || c = '.' || c = ',') && iptTail c rest)

/-- Scan for `\b\d[\d\s.,]*\b` at every position (the optional leading `(\$\s*)?`
of the source pattern neither enables nor blocks a match). -/
def iptScan (prev : Option Char) : Str → Bool
  | [] => false
  | c :: rest =>
    (c.isDigit && (match prev with | none => true | some p => !wordChar p) && iptTail c rest)
    || iptScan (some c) rest

/-- Source `is_price_token`: `bool(re.search(r"(\$\s*)?\b\d[\d\s.,]*\b\s*\$?", normalize(s)))`. -/
def is_price_token (s0 : Str) : Bool := iptScan none (normalize s0)

/-- Candidate greedy parses (group, rest) of `\d{1,3}` in backtracking order
(longest first). -/
def d1Cands (s : Str) : List (Str × Str) :=
  let k := min 3 (s.takeWhile Char.isDigit).length
  (List.range k).map (fun i => (s.take (k - i), s.drop (k - i)))

/-- Candidate parses of `(?:[,\s]\d{3})*` in backtracking order (most repetitions
first). -/
def repsCands : Str → List (Str × Str)
  | a :: b :: c :: d :: rest =>
    if sepChar a && b.isDigit && c.isDigit && d.isDigit then
      ((repsCands rest).map (fun gr => (a :: b :: c :: d :: gr.1, gr.2)))
        ++ [([], a :: b :: c :: d :: rest)]
    else [([], a :: b :: c :: d :: rest)]
  | s => [([], s)]

/-- Candidate parses of `(?:[.,]\d{2})?` in backtracking order (present first). -/
def decCands (s : Str) : List (Str × Str) :=
  match s with
  | a :: b :: c :: rest =>
    if (a = '.' || a = ',') && b.isDigit && c.isDigit then
      [([a, b, c], rest), ([], a :: b :: c :: rest)]
    else [([], a :: b :: c :: rest)]
  | _ => [([], s)]

def firstSome {α β : Type} : List α → (α → Option β) → Option β
  | [], _ => none
  | a :: rest, f =>
    match f a with
    | some b => some b
    | none => firstSome rest f

/-- All parses of the full number group in the regex engine's backtracking order. -/
def numFullCands (s : Str) : List (Str × Str) :=
  (d1Cands s).flatMap (fun p1 =>
    (repsCands p1.2).flatMap (fun p2 =>
      (decCands p2.2).map (fun p3 => (p1.1 ++ p2.1 ++ p3.1, p3.2))))

/-- Does `s` match `\s*\$?\s*$`? -/
def moneyTailOk (s : Str) : Bool :=
  let r := s.dropWhile isWs
  let r' := match r with
    | '$' :: t => t
    | _ => r
  (r'.dropWhile isWs).isEmpty

/-- Source Tier-2 `is_price_only`: anchored match of
`^\s*(?:\$\s*)?(num)\s*\$?\s*$` with backtracking inside the number group;
returns the formatted price. -/
def is_price_only (line : Str) : Option Str :=
  let s := line.dropWhile isWs
  let s' := match s with
    | '$' :: t => t.dropWhile isWs
    | _ => s
  match firstSome (numFullCands s') (fun gr => if moneyTailOk gr.2 then some gr.1 else none) with
  | none => none
  | some g =>
    let raw := (normalize g).filter (fun c => c ≠ ' ')
    if raw = [] then none else some (raw ++ lit " $")

/-- Rest after the greedy money match `num \s* \$?` whose number starts at `s`. -/
def afterMoney (s : Str) : Str :=
  let r := ((numParseAt s).2).dropWhile isWs
  match r with
  | '$' :: t => t
  | _ => r

/-- Worker for `re.sub(price_re, "", line)`: `skip` counts characters of the
current match still to be dropped; at `skip = 0` a new match may start at a
digit or at a `$` followed (after spaces) by a digit, exactly as in `findNum`. -/
def priceSubGo : Nat → Str → Str
  | n + 1, _ :: rest => priceSubGo n rest
  | _, [] => []
  | 0, c :: rest =>
    if c.isDigit then
      priceSubGo ((c :: rest).length - (afterMoney (c :: rest)).length - 1) rest
    else if c = '$' then
      match (rest.dropWhile isWs).head? with
      | some d =>
        if d.isDigit then
          priceSubGo ((c :: rest).length - (afterMoney (rest.dropWhile isWs)).length - 1) rest
        else c :: priceSubGo 0 rest
      | none => c :: priceSubGo 0 rest
    else c :: priceSubGo 0 rest

/-- `price_re.sub("", line)`: remove every (leftmost, greedy) money match. -/
def priceSub (s : Str) : Str := priceSubGo 0 s

/-- The banned-term tuple of `looks_like_junk`, transcribed verbatim (including
its duplicated entries and the curly-apostrophe entry that can never match
after the source's straightening replacements). -/
def junkBanned : List Str :=
  [lit "année modèle", lit "annee modele", lit "prix de base", lit "prix total",
   lit "p.d.s.f", lit "pdsf", lit "préparation", lit "preparation",
   lit "frais d'expédition", lit "frais d expedition", lit "destination",
   lit "destination charge", lit "freight", lit "shipping", lit "energuide",
   lit "consommation", lit "annual fuel cost", lit "coût annuel", lit "cout annuel",
   lit "garantie", lit "assistance routière", lit "assistance routiere",
   lit "transférable", lit "transferable", lit "motopropulseur", lit "fca canada",
   lit "ce véhicule est fabriqué", lit "ce vehicule est fabrique",
   lit "vehicles.nrcan", lit "vehicules.nrcan", lit "indice", lit "smog",
   lit "carbon", lit "tailpipe", lit "government of canada",
   lit "visitez le site web", lit "contactez",
   lit "pour de plus amples renseignements",
   lit "manufacturer's suggested retail price", lit "suggested retail price",
   lit "msrp", lit "tariff adjustment", lit "total price", lit "base price",
   lit "destination charge", lit "freight charge", lit "destination charge",
   lit "tariff adjustment", lit "federal a/c excise tax", lit "frais d’expédition",
   lit "taxe d’accise", lit "taxe d'accise", lit "federal a c excise tax"]

/-- The character replacements `looks_like_junk` applies to the lowered line:
curly apostrophe, minus sign and en dash straightened, NBSP to space. -/
def junkReplace (c : Char) : Char :=
  if c = '’' then '\''
  else if c = '−' then '-'
  else if c = '–' then '-'
  else if c = ' ' then ' '
  else c

/-- Source `looks_like_junk`. -/
def looks_like_junk (s : Str) : Bool :=
  if s = [] then true
  else
    let low := (lowerStr s).map junkReplace
    if junkBanned.any (fun b => containsStr b low) then true
    else if containsStr (lit "http") low || containsStr (lit "www.") low then true
    else if s.length > 90 then true
    else false

def stopPhrases : List Str :=
  [lit "le concessionnaire", lit "peut vendre moins cher",
   lit "expedier a", lit "expédier à", lit "expedie a", lit "expédié à",
   lit "vendu a", lit "vendu à", lit "par le concessionnaire",
   lit "the dealer", lit "may sell for less", lit "shipped to", lit "sold to",
   lit "by dealer"]

/-- Source `is_hard_stop_detail`. -/
def is_hard_stop_detail (t : Str) : Bool :=
  let low := stripWs (lowerStr t)
  if low = lit "s.l." then true
  else stopPhrases.any (fun k => containsStr k low)

/-- Length of the `\bwww\.[^\s]+` match starting at `s` (assuming it matches). -/
def wwwLen (s : Str) : Nat := 4 + ((s.drop 4).takeWhile (fun c => !isWs c)).length

/-- Worker for `re.sub(r"\bwww\.[^\s]+", "", s, flags=re.I)`: `skip` counts
characters of the current match still to be dropped, `prev` is the previous
original character (for the `\b` test). -/
def removeWwwGo : Nat → Option Char → Str → Str
  | n + 1, _, c :: rest => removeWwwGo n (some c) rest
  | _, _, [] => []
  | 0, prev, c :: rest =>
    if (match prev with | none => true | some p => !wordChar p)
        && strStarts (lit "www.") (lowerStr ((c :: rest).take 4))
        && (match (c :: rest).drop 4 with | d :: _ => !isWs d | [] => false) then
      removeWwwGo (wwwLen (c :: rest) - 1) (some c) rest
    else c :: removeWwwGo 0 (some c) rest

/-- Worker for `re.sub(r"\s{2,}", " ", s)`: a whitespace run of length at least
two is replaced by a single space (`skip` counts run characters still to drop);
a lone whitespace character is kept unchanged. -/
def collapseMultiGo : Nat → Str → Str
  | n + 1, _ :: rest => collapseMultiGo n rest
  | _, [] => []
  | 0, c :: rest =>
    if isWs c && (match rest with | d :: _ => isWs d | [] => false) then
      ' ' :: collapseMultiGo (rest.takeWhile isWs).length rest
    else c :: collapseMultiGo 0 rest

/-- Collapse `\s{2,}` runs to a single space. -/
def collapseMulti (s : Str) : Str := collapseMultiGo 0 s

/-- Source `clean_option_line`: normalize, remove `www.` tokens, strip,
collapse double spaces, strip. -/
def clean_option_line (s : Str) : Str :=
  let s1 := normalize s
  let s2 := stripWs (removeWwwGo 0 none s1)
  stripWs (collapseMulti s2)

def hybridKeys : List Str :=
  [lit "phev", lit "plug-in", lit "plug in", lit "plug-in hybrid", lit "hybrid",
   lit "hybride", lit "vehicule hybride", lit "véhicule hybride",
   lit "vehicule hybride rechargeable", lit "véhicule hybride rechargeable",
   lit "vhr", lit "plug–in hybrid vehicle", lit "plug-in hybrid vehicle"]

/-- Source `detect_hybrid_from_text`. -/
def detect_hybrid_from_text (txt : Str) : Bool :=
  hybridKeys.any (fun k => containsStr k (lowerStr txt))

def allowedBrands : List Str :=
  [lit "ram", lit "dodge", lit "jeep", lit "chrysler", lit "alfa",
   lit "alfaromeo", lit "alfa romeo"]

/-- Source `is_allowed_stellantis_brand`. -/
def is_allowed_stellantis_brand (txt : Str) : Bool :=
  allowedBrands.any (fun a => containsStr a (lowerStr txt))

/-- The VIN alphabet `[A-HJ-NPR-Z0-9]`. -/
def vinChar (c : Char) : Bool :=
  (('A' ≤ c && c ≤ 'Z') && !(c = 'I' || c = 'O' || c = 'Q')) || c.isDigit

def dashChar (c : Char) : Bool := c = '-' || c = '–' || c = '—'

def vinBoundaryPrev : Option Char → Bool
  | none => true
  | some p => !wordChar p

/-- Does `\b[A-HJ-NPR-Z0-9]{17}\b` match exactly here (given the boundary before
the window is checked by the caller)? -/
def vin17At (s : Str) : Bool :=
  (s.take 17).length = 17 && (s.take 17).all vinChar &&
  (match s.drop 17 with | c :: _ => !wordChar c | [] => true)

/-- Leftmost match of `\b([A-HJ-NPR-Z0-9]{17})\b`. -/
def vin17Search : Option Char → Str → Option Str
  | _, [] => none
  | prev, c :: rest =>
    if vinBoundaryPrev prev && vin17At (c :: rest) then some ((c :: rest).take 17)
    else vin17Search (some c) rest

/-- Take exactly `n` characters all satisfying `p`. -/
def takeRun (p : Char → Bool) (n : Nat) (s : Str) : Option (Str × Str) :=
  if (s.take n).length = n && (s.take n).all p then some (s.take n, s.drop n)
  else none

/-- Deterministic `\s*[-–—]\s*`. -/
def sepDash (s : Str) : Option Str :=
  match s.dropWhile isWs with
  | d :: t => if dashChar d then some (t.dropWhile isWs) else none
  | [] => none

/-- Backtracking match at one position of the chunked-VIN pattern
`\b([A-HJ-NPR-Z0-9]{3,6})\s*[-–—]\s*([A-HJ-NPR-Z0-9]{4,8})\s*[-–—]\s*([A-HJ-NPR-Z0-9]{3,8})\b`,
with each greedy counted repetition tried longest-first. -/
def m2Try (s : Str) : Option (Str × Str × Str) :=
  firstSome [6, 5, 4, 3] (fun n1 =>
    match takeRun vinChar n1 s with
    | none => none
    | some (g1, r1) =>
      match sepDash r1 with
      | none => none
      | some r2 =>
        firstSome [8, 7, 6, 5, 4] (fun n2 =>
          match takeRun vinChar n2 r2 with
          | none => none
          | some (g2, r3) =>
            match sepDash r3 with
            | none => none
            | some r4 =>
              firstSome [8, 7, 6, 5, 4, 3] (fun n3 =>
                match takeRun vinChar n3 r4 with
                | none => none
                | some (g3, r5) =>
                  if (match r5 with | c :: _ => !wordChar c | [] => true) then
                    some (g1, g2, g3)
                  else none)))

/-- Leftmost match of the chunked-VIN pattern. -/
def m2Search : Option Char → Str → Option (Str × Str × Str)
  | _, [] => none
  | prev, c :: rest =>
    if vinBoundaryPrev prev then
      match m2Try (c :: rest) with
      | some g => some g
      | none => m2Search (some c) rest
    else m2Search (some c) rest

/-- Window scan of the source's third VIN strategy. -/
def vinScan : Str → Str
  | [] => []
  | c :: rest =>
    if ((c :: rest).take 17).length = 17 && ((c :: rest).take 17).all vinChar
        && !(((c :: rest).take 17).any (fun x => x = 'I' || x = 'O' || x = 'Q')) then
      (c :: rest).take 17
    else vinScan rest

/-- Third VIN strategy: blank out everything except `[A-Z0-9\-–—\s]`, collapse
whitespace, drop spaces and dashes, scan 17-character windows. -/
def vinWindows (t : Str) : Str :=
  let blob := t.map (fun c =>
    if ('A' ≤ c && c ≤ 'Z') || c.isDigit || dashChar c || isWs c then c else ' ')
  let blob' := normalize blob
  vinScan (blob'.filter (fun c => !(isWs c || dashChar c)))

/-- Source `extract_vin_from_text`. -/
def extract_vin_from_text (txt : Str) : Str :=
  if txt = [] then []
  else
    let t := upperStr txt
    match vin17Search none t with
    | some w => w
    | none =>
      match m2Search none t with
      | some (g1, g2, g3) =>
        let cand := (g1 ++ g2 ++ g3).filter (fun c => ('A' ≤ c && c ≤ 'Z') || c.isDigit)
        if cand.length = 17 && !(cand.any (fun c => c = 'I' || c = 'O' || c = 'Q')) then cand
        else vinWindows t
      | none => vinWindows t

structure SpanL where
  text : Str
  x0 : ℤ
  y0 : ℤ
  x1 : ℤ
  y1 : ℤ
  bold_ratio : ℚ
deriving DecidableEq

structure OptGroup where
  title : Str
  price : Option Str
  details : List Str
deriving DecidableEq

def anchorKeys : List Str := [lit "ACCESSOIRES OPTIONNELS", lit "OPTIONAL EQUIPMENT"]

def hasAnchorText (t : Str) : Bool :=
  anchorKeys.any (fun a => containsStr a (upperStr t))

def anchorCands (spans : List SpanL) : List SpanL :=
  spans.filter (fun sp => hasAnchorText sp.text)

/-- Python `max(..., key=lambda sp: sp.y0)`: keeps the first of equal maxima. -/
def pyMaxY0 : SpanL → List SpanL → SpanL
  | best, [] => best
  | best, s :: rest => pyMaxY0 (if s.y0 > best.y0 then s else best) rest

/-- The Tier-1 section anchor: among the spans containing a section-header
phrase, the one with the greatest `y0`. -/
def theAnchor (spans : List SpanL) : Option SpanL :=
  match anchorCands spans with
  | [] => none
  | a :: rest => some (pyMaxY0 a rest)

def isJunkDetailKeys : List Str :=
  [lit "expedier", lit "vendu", lit "concessionnaire", lit "dealer",
   lit "shipped", lit "sold"]

/-- Source `is_junk_detail` (local to `extract_option_groups_from_spans`). -/
def is_junk_detail (t : Str) : Bool :=
  looks_like_junk t ||
  (!t.isEmpty && t.all (fun c => c.isDigit || isWs c || dashChar c)) ||
  isJunkDetailKeys.any (fun k => containsStr k (stripWs (lowerStr t)))

/-- The single pass of the source that fills `right_text` (label band,
`250 ≤ x0 ≤ 445`, junk filtered on the cleaned text) and `prices` (price band,
`x0 ≥ 445`, money-token spans reduced to a normalized price), keeping only
spans with `y0 ≤ anchor_y`. -/
def bandCollect (anchorY : ℤ) : List SpanL → List SpanL × List (ℤ × Str)
  | [] => ([], [])
  | sp :: rest =>
    let (rt, ps) := bandCollect anchorY rest
    if sp.y0 > anchorY then (rt, ps)
    else
      let t := clean_option_line sp.text
      if t = [] then (rt, ps)
      else
        let rt' := if 250 ≤ sp.x0 ∧ sp.x0 ≤ 445 ∧ looks_like_junk t = false then sp :: rt else rt
        let ps' :=
          if 445 ≤ sp.x0 ∧ is_price_token sp.text = true then
            match extract_price sp.text with
            | some p => (sp.y0, p) :: ps
            | none => ps
          else ps
        (rt', ps')

/-- Stable insertion into a list sorted by descending `y0` (equal keys keep the
earlier element first, matching Python's stable `sort(reverse=True)`). -/
def insertDesc (sp : SpanL) : List SpanL → List SpanL
  | [] => [sp]
  | x :: xs => if sp.y0 ≥ x.y0 then sp :: x :: xs else x :: insertDesc sp xs

def sortDesc : List SpanL → List SpanL
  | [] => []
  | x :: xs => insertDesc x (sortDesc xs)

/-- Absolute value on ℤ (Python `abs`). -/
def intAbs (q : ℤ) : ℤ := if q < 0 then -q else q

/-- Source `nearest_price`: strictly closer prices win (first on ties), with the
initial distance 9999.0 and tolerance 6.0. -/
def nearest_price (prices : List (ℤ × Str)) (y : ℤ) : Option Str :=
  let r := prices.foldl
    (fun (acc : Option Str × ℤ) pr =>
      let dy := intAbs (pr.1 - y)
      if dy < acc.2 then (some pr.2, dy) else acc)
    ((none : Option Str), (9999 : ℤ))
  match r with
  | (some p, bd) => if bd ≤ 6 then some p else none
  | (none, _) => none

def flushCur : Option OptGroup → List OptGroup
  | some g => [g]
  | none => []

/-- The Tier-1 scan loop over the sorted label band: a nearest aligned price
opens a new group, otherwise the line is a detail of the open group (or is
discarded), with a hard stop breaking the loop.  The two checks repeated inside
the priced branch are transcribed from the source (where they are unreachable
after the earlier `continue`s). -/
def tier1Scan (prices : List (ℤ × Str)) : List SpanL → Option OptGroup → List OptGroup
  | [], cur => flushCur cur
  | sp :: rest, cur =>
    let text := clean_option_line sp.text
    if text = [] then tier1Scan prices rest cur
    else if (extract_price text).isSome ∧ latinCount text < 2 then tier1Scan prices rest cur
    else if looks_like_junk text = true then tier1Scan prices rest cur
    else if hasAnchorText text = true then tier1Scan prices rest cur
    else if is_hard_stop_detail text = true then flushCur cur
    else
      match nearest_price prices sp.y0 with
      | some p =>
        if (extract_price text).isSome ∧ latinCount text < 2 then tier1Scan prices rest cur
        else if looks_like_junk text = true then tier1Scan prices rest cur
        else flushCur cur ++ tier1Scan prices rest (some ⟨text, some p, []⟩)
      | none =>
        match cur with
        | none => tier1Scan prices rest none
        | some g =>
          if is_junk_detail text = true then tier1Scan prices rest (some g)
          else if sp.x0 < 315 ∧ text.length > 70 then tier1Scan prices rest (some g)
          else if lowerStr text ≠ lowerStr g.title then
            tier1Scan prices rest (some ⟨g.title, g.price, g.details ++ [text]⟩)
          else tier1Scan prices rest (some g)

def banTitles : List Str :=
  [lit "destination charge", lit "tariff adjustment", lit "federal a/c excise tax",
   lit "federal a c excise tax", lit "federal a c excise tax"]

/-- The per-group condition of the Tier-1 post-filter loop. -/
def keepTitle (g : OptGroup) : Bool :=
  let t := stripWs g.title
  if t = [] then false
  else if containsStr (lit "TAXE ACCISE") (upperStr t) = true then false
  else if banTitles.any (fun b => containsStr b (lowerStr t)) then false
  else if looks_like_junk t = true then false
  else true

/-- The Tier-1 post-filter loop (append each group passing `keepTitle`). -/
def postFilterT1 : List OptGroup → List OptGroup
  | [] => []
  | g :: rest => if keepTitle g then g :: postFilterT1 rest else postFilterT1 rest

/-- Anchor location, band collection, stable sort and scan of Tier 1, before the
post-filter. -/
def tier1Raw (spans : List SpanL) : List OptGroup :=
  match theAnchor spans with
  | none => []
  | some anc =>
    let (rt, ps) := bandCollect anc.y0 spans
    tier1Scan ps (sortDesc rt) none

/-- Source `extract_option_groups_from_spans`. -/
def extract_option_groups_from_spans (spans : List SpanL) : List OptGroup :=
  if spans = [] then []
  else (postFilterT1 (tier1Raw spans)).take 12

/-- Python `min(..., key=...)`-style fold keeping the first of equal minima. -/
def pyMinY0 : SpanL → List SpanL → SpanL
  | best, [] => best
  | best, s :: rest => pyMinY0 (if s.y0 < best.y0 then s else best) rest

/-- Modelled from the spec of claim C6: the anchor is "the lowest-positioned
span" (minimal `y0`) and both bands are "restricted to spans at or above the
anchor's vertical position" (`y0 ≥ anchor_y`); everything else is as in the
source Tier 1. -/
def bandCollectSpecC6 (anchorY : ℤ) : List SpanL → List SpanL × List (ℤ × Str)
  | [] => ([], [])
  | sp :: rest =>
    let (rt, ps) := bandCollectSpecC6 anchorY rest
    if sp.y0 < anchorY then (rt, ps)
    else
      let t := clean_option_line sp.text
      if t = [] then (rt, ps)
      else
        let rt' := if 250 ≤ sp.x0 ∧ sp.x0 ≤ 445 ∧ looks_like_junk t = false then sp :: rt else rt
        let ps' :=
          if 445 ≤ sp.x0 ∧ is_price_token sp.text = true then
            match extract_price sp.text with
            | some p => (sp.y0, p) :: ps
            | none => ps
          else ps
        (rt', ps')

/-- Modelled from the spec of claim C6 (see `bandCollectSpecC6`). -/
def claimC6_extract (spans : List SpanL) : List OptGroup :=
  if spans = [] then []
  else
    match anchorCands spans with
    | [] => []
    | a :: rest =>
      let anc := pyMinY0 a rest
      let (rt, ps) := bandCollectSpecC6 anc.y0 spans
      (postFilterT1 (tier1Scan ps (sortDesc rt) none)).take 12

def splitLinesGo (cur : Str) : Str → List Str
  | [] => [cur.reverse]
  | c :: rest =>
    if c = '\n' then cur.reverse :: splitLinesGo [] rest
    else splitLinesGo (c :: cur) rest

/-- Python `str.splitlines` for newline-separated text (no piece after a
terminating newline, empty list for the empty string). -/
def splitLines (s : Str) : List Str :=
  if s = [] then []
  else
    let ps := splitLinesGo [] s
    if s.getLast? = some '\n' then ps.dropLast else ps

/-- The lines after the first line containing a section-header phrase
(`start_idx + 1` onward in the source). -/
def anchorAfter : List Str → Option (List Str)
  | [] => none
  | l :: rest => if hasAnchorText l then some rest else anchorAfter rest

/-- The Tier-2 collection loop: price-only lines queue a price, lines containing
any money substring are skipped as noise, other lines are junk-filtered and
queued as labels; a hard-stop line ends the scan. -/
def tier2Collect : List Str → List Str × List Str
  | [] => ([], [])
  | l0 :: rest =>
    let l := stripWs l0
    if l = [] then tier2Collect rest
    else if is_hard_stop_detail l = true then ([], [])
    else
      match is_price_only l with
      | some p =>
        let (ls, ps) := tier2Collect rest
        (ls, p :: ps)
      | none =>
        if hasDigit l then tier2Collect rest
        else
          let cand := clean_option_line l
          if cand = [] ∨ looks_like_junk cand = true then tier2Collect rest
          else
            let (ls, ps) := tier2Collect rest
            (cand :: ls, ps)

def keepPres : List Str :=
  [lit "ENSEMBLE", lit "ATTELAGE", lit "COMMANDE", lit "TAPIS", lit "ESSIEU",
   lit "PNEU", lit "PNEUS", lit "CROCHETS", lit "PLAQUE", lit "AJOUT",
   lit "TAXE", lit "SUPPORT", lit "SIEGE", lit "SIÈGE", lit "PRISE",
   lit "BANQUETTE", lit "BANQ", lit "DIFFERENTIEL", lit "DIFF", lit "GROUP",
   lit "PACKAGE", lit "MOPAR", lit "CLASS", lit "CARGO", lit "SAFETY",
   lit "PREMIUM", lit "CUSTOMER"]

/-- Labels whose upper-cased form starts with a curated category lead
(`lb.upper().startswith(keep_prefixes)`). -/
def filteredLabels (labels : List Str) : List Str :=
  labels.filter (fun lb => keepPres.any (fun p => strStarts p (upperStr lb)))

/-- `use_labels = filtered_labels if filtered_labels else labels`. -/
def useLabels (labels : List Str) : List Str :=
  if filteredLabels labels = [] then labels else filteredLabels labels

/-- `[f"{use_labels[i]} ({prices[i]})" for i in range(min(len, len))]`, which is
exactly index-wise zipping. -/
def pairLabelsPrices (ls ps : List Str) : List Str :=
  (List.zip ls ps).map (fun lp => lp.1 ++ lit " (" ++ lp.2 ++ lit ")")

/-- The Tier-2 final dedup loop keyed by the lower-cased string. -/
def dedupStrs (seen : List Str) : List Str → List Str
  | [] => []
  | x :: rest =>
    let k := lowerStr x
    if seen.contains k then dedupStrs seen rest
    else x :: dedupStrs (k :: seen) rest

/-- Source `extract_paid_options_from_text`. -/
def extract_paid_options_from_text (txt : Str) : List Str :=
  let lines := (splitLines txt).map normalize
  match anchorAfter lines with
  | none => []
  | some rest =>
    let (labels, prices) := tier2Collect rest
    (dedupStrs [] (pairLabelsPrices (useLabels labels) prices)).take 12

/-- The shape `main` gives Tier-2 results:
`[{"title": x, "price": None, "details": []} for x in flat]`. -/
def tier2AsGroups (txt : Str) : List OptGroup :=
  (extract_paid_options_from_text txt).map (fun x => ⟨x, none, []⟩)

def ocrBannedTitles : List Str :=
  [lit "destination charge", lit "freight", lit "freight charge", lit "shipping",
   lit "tariff adjustment", lit "msrp",
   lit "manufacturer's suggested retail price", lit "suggested retail price",
   lit "p.d.s.f", lit "pdsf", lit "prix total", lit "total price",
   lit "prix de base", lit "base price", lit "federal a/c excise tax",
   lit "federal a c excise tax"]

def titleStripChar (c : Char) : Bool :=
  c = ' ' || c = '-' || c = '–' || c = ':' || c = '•' || c = '\t'

/-- Python `str.strip(chars)`. -/
def stripBoth (p : Char → Bool) (s : Str) : Str :=
  ((s.dropWhile p).reverse.dropWhile p).reverse

/-- The OCR lines: normalized text paired with the raw leading-space count,
blank lines dropped. -/
def ocrLines (text : Str) : List (Str × Nat) :=
  ((splitLines text).map (fun x => (normalize x, (x.takeWhile (fun c => c = ' ')).length))).filter
    (fun pr => pr.1 ≠ [])

/-- The OCR scan loop: a line containing a money match opens a group (title =
line with money matches removed, stripped and cleaned, subject to the junk,
price-only and banned-title checks); other lines are appended as details of the
open group. -/
def ocrScan : Option OptGroup → List (Str × Nat) → List OptGroup
  | cur, [] => flushCur cur
  | cur, (ln, ind) :: rest =>
    if is_hard_stop_detail ln = true then flushCur cur
    else if hasDigit ln then
      let p := extract_price ln
      let title := clean_option_line (stripBoth titleStripChar (priceSub ln))
      if title = [] then ocrScan cur rest
      else if looks_like_junk title = true then ocrScan cur rest
      else if (extract_price title).isSome ∧ latinCount title < 2 then ocrScan cur rest
      else if ocrBannedTitles.any (fun b => containsStr b (lowerStr title)) then ocrScan cur rest
      else flushCur cur ++ ocrScan (some ⟨title, p, []⟩) rest
    else
      match cur with
      | none => ocrScan none rest
      | some g =>
        let d := clean_option_line ln
        if d = [] then ocrScan (some g) rest
        else if looks_like_junk d = true then ocrScan (some g) rest
        else if (extract_price d).isSome ∧ latinCount d < 2 then ocrScan (some g) rest
        else if ind < 2 ∧ d.length > 80 then ocrScan (some g) rest
        else if lowerStr d ≠ lowerStr g.title then
          ocrScan (some ⟨g.title, g.price, g.details ++ [d]⟩) rest
        else ocrScan (some g) rest

/-- The OCR final dedup loop keyed by the lower-cased stripped title (empty keys
are dropped). -/
def dedupGroups (seen : List Str) : List OptGroup → List OptGroup
  | [] => []
  | g :: rest =>
    let k := stripWs (lowerStr g.title)
    if k ≠ [] ∧ seen.contains k = false then g :: dedupGroups (k :: seen) rest
    else dedupGroups seen rest

/-- Source `extract_option_groups_from_ocr`. -/
def extract_option_groups_from_ocr (text : Str) : List OptGroup :=
  (dedupGroups [] (ocrScan none (ocrLines text))).take 12

inductive LineObj where
  | ch (text : Str) (x0 y0 x1 y1 : ℤ) (fontname : Str)
  | anno (text : Str)
  | other
deriving DecidableEq

inductive PageElem where
  | textContainer (lines : List (List LineObj))
  | nonText
deriving DecidableEq

abbrev PageLayout := List PageElem

def boldMarkers : List Str :=
  [lit "bold", lit "black", lit "demi", lit "heavy", lit "semibold"]

def objText : LineObj → Str
  | .ch t _ _ _ _ _ => t
  | .anno t => t
  | .other => []

def objChar : LineObj → Option (ℤ × ℤ × ℤ × ℤ × Str)
  | .ch _ x0 y0 x1 y1 f => some (x0, y0, x1, y1, f)
  | _ => none

def foldMinZ : List ℤ → Option ℤ
  | [] => none
  | q :: rest => some (rest.foldl min q)

def foldMaxZ : List ℤ → Option ℤ
  | [] => none
  | q :: rest => some (rest.foldl max q)

/-- One text line of the layout turned into a normalized span: concatenated
char/anno text, union bounding box over the chars (0.0 when there is no char,
as the source replaces the infinities), and the bold-font character ratio.
Children that are neither chars nor annotations are skipped, as in the source's
`isinstance` dispatch. -/
def spanOfLine (objs : List LineObj) : Option SpanL :=
  let text := normalize (objs.flatMap objText)
  if text = [] then none
  else
    let chars := objs.filterMap objChar
    let x0 := (foldMinZ (chars.map (fun c => c.1))).getD 0
    let y0 := (foldMinZ (chars.map (fun c => c.2.1))).getD 0
    let x1 := (foldMaxZ (chars.map (fun c => c.2.2.1))).getD 0
    let y1 := (foldMaxZ (chars.map (fun c => c.2.2.2.1))).getD 0
    let bold := (chars.filter
      (fun c => boldMarkers.any (fun m => containsStr m (lowerStr c.2.2.2.2)))).length
    let br : ℚ := if chars.length = 0 then 0 else (bold : ℚ) / (chars.length : ℚ)
    some ⟨text, x0, y0, x1, y1, br⟩

def pageSpans (p : PageLayout) : List SpanL :=
  p.flatMap (fun e =>
    match e with
    | .textContainer ls => ls.filterMap spanOfLine
    | .nonText => [])

def spansOfDoc (pages : List PageLayout) (maxPages : Nat) : List SpanL :=
  (pages.take maxPages).flatMap pageSpans

/-- Source `extract_spans_pdfminer`: the document is the result of
`extract_pages` (`Except.error` when the file cannot be parsed as a layout
document); the function iterates the parsed pages without any exception
handler, so a parse failure propagates to the caller. -/
def extract_spans_pdfminer (doc : Except Unit (List PageLayout)) (maxPages : Nat) :
    Except Unit (List SpanL) :=
  match doc with
  | .error e => .error e
  | .ok pages => .ok (spansOfDoc pages maxPages)

def baseTags : List Str :=
  [lit "#Beauce", lit "#SaintGeorges", lit "#Quebec", lit "#AutoUsagée",
   lit "#VehiculeOccasion", lit "#DanielGiroux"]

def brandTags : List (Str × List Str) :=
  [(lit "ram", [lit "#RAM", lit "#Truck", lit "#Pickup"]),
   (lit "jeep", [lit "#Jeep", lit "#4x4", lit "#SUV"]),
   (lit "dodge", [lit "#Dodge", lit "#Performance"]),
   (lit "chrysler", [lit "#Chrysler", lit "#Familiale"]),
   (lit "alfa", [lit "#AlfaRomeo", lit "#Performance"])]

def modelTags : List (Str × List Str) :=
  [(lit "hornet", [lit "#Hornet", lit "#SUV", lit "#Performance"]),
   (lit "challenger", [lit "#Challenger", lit "#MuscleCar"]),
   (lit "charger", [lit "#Charger", lit "#MuscleCar"]),
   (lit "durango", [lit "#Durango", lit "#SUV"]),
   (lit "promaster", [lit "#ProMaster", lit "#Cargo", lit "#Van"]),
   (lit "1500", [lit "#RAM1500", lit "#Pickup"]),
   (lit "2500", [lit "#RAM2500", lit "#HeavyDuty"]),
   (lit "wagoneer", [lit "#Wagoneer", lit "#SUV", lit "#4x4"]),
   (lit "wrangler", [lit "#Wrangler", lit "#OffRoad", lit "#4x4"]),
   (lit "grand cherokee", [lit "#GrandCherokee", lit "#LuxurySUV", lit "#4x4"]),
   (lit "gladiator", [lit "#Gladiator", lit "#Pickup4x4"])]

def variantTags : List (Str × List Str) :=
  [(lit "r/t", [lit "#RT"]),
   (lit " rt ", [lit "#RT"]),
   (lit "plus", [lit "#Plus"]),
   (lit "hybrid", [lit "#Hybride"]),
   (lit "plug-in", [lit "#HybrideRechargeable"]),
   (lit "phev", [lit "#HybrideRechargeable"]),
   (lit "awd", [lit "#AWD"]),
   (lit "4x4", [lit "#4x4"]),
   (lit "4wd", [lit "#4x4"]),
   (lit "v8", [lit "#V8"])]

def joinWith (sep : Str) : List Str → Str
  | [] => []
  | [x] => x
  | x :: y :: rest => x ++ sep ++ joinWith sep (y :: rest)

/-- Source `choose_hashtags`: first matching brand (then break), all matching
models, all matching variants, the base tags; dedup case-insensitively keeping
first; join the first 18 with spaces. -/
def choose_hashtags (title : Str) : Str :=
  let t := lowerStr title
  let brand := match brandTags.find? (fun bt => containsStr bt.1 t) with
    | some bt => bt.2
    | none => []
  let tags := brand
    ++ (modelTags.filter (fun mt => containsStr mt.1 t)).flatMap (fun mt => mt.2)
    ++ (variantTags.filter (fun vt => containsStr vt.1 t)).flatMap (fun vt => vt.2)
    ++ baseTags
  joinWith (lit " ") ((dedupStrs [] tags).take 18)

/-- The per-group ad lines of `build_ad`: the title line (the group's `price`
field is never consulted), then the first 12 details, each stripped and
re-checked against the junk and price-only predicates. -/
def adOptionLines (options : List OptGroup) : List Str :=
  options.flatMap (fun g =>
    let t := stripWs g.title
    if t = [] then []
    else
      (lit "✅  " ++ t) ::
      (g.details.take 12).filterMap (fun d =>
        let dd := stripWs d
        if dd = [] then none
        else if looks_like_junk dd = true then none
        else if (extract_price dd).isSome ∧ latinCount dd < 2 then none
        else some (lit "        ▫️ " ++ dd)))

/-- Source `build_ad`. -/
def build_ad (title price mileage stock vin : Str) (options : List OptGroup)
    (is_hybrid : Bool) (dealer year transmission drivetrain : Str) : Str :=
  let title := stripWs title
  let details :=
    (if stock ≠ [] then [lit "✅ Inventaire : " ++ stock] else [])
    ++ (if year ≠ [] then [lit "✅ Année : " ++ year] else [])
    ++ (if vin ≠ [] then [lit "✅ VIN : " ++ vin] else [])
    ++ (if transmission ≠ [] then [lit "✅ Transmission : " ++ transmission] else [])
    ++ (if drivetrain ≠ [] then [lit "✅ Entraînement : " ++ drivetrain] else [])
  let lines : List Str :=
    [lit "🔥 " ++ title ++ lit " 🔥", []]
    ++ (if price ≠ [] then [lit "💥 " ++ price ++ lit " 💥"] else [])
    ++ (if mileage ≠ [] then [lit "📊 Kilométrage : " ++ mileage] else [])
    ++ (if dealer ≠ [] then [lit "📍 " ++ dealer] else [])
    ++ [[]]
    ++ (if is_hybrid then [lit "⚡ Véhicule hybride rechargeable (PHEV)", []] else [])
    ++ (if details ≠ [] then (lit "🚗 DÉTAILS" :: details) ++ [[]] else [])
    ++ (if options ≠ [] then
          [lit "✨ ACCESSOIRES OPTIONNELS (Window Sticker)", []]
          ++ adOptionLines options
          ++ [[], lit "📌 Le reste des détails est dans le Window Sticker :", []]
          ++ [if vin ≠ [] then
                lit "https://www.chrysler.com/hostd/windowsticker/getWindowStickerPdf.do?vin=" ++ vin
              else lit "(VIN introuvable — ajoute --vin pour générer le lien)"]
          ++ [[]]
        else [])
    ++ [lit "🔁 J’accepte les échanges : 🚗 auto • 🏍️ moto • 🛥️ bateau • 🛻 VTT • 🏁 côte-à-côte",
        lit "📸 Envoie-moi les photos + infos de ton échange (année / km / paiement restant) → je te reviens vite.",
        [],
        lit "👋 Publiée par Daniel Giroux — je réponds vite (pas un robot, promis 😄)",
        lit "📍 Saint-Georges (Beauce) | Prise de possession rapide possible",
        lit "📄 Vente commerciale — 2 taxes applicables",
        lit "✅ Inspection complète — véhicule propre & prêt à partir.",
        [],
        lit "📩 Écris-moi en privé — ou texte direct",
        lit "📞 Daniel Giroux — 418-222-3939",
        [],
        choose_hashtags title]
  stripWs (joinWith (lit "\n") lines) ++ ['\n']

structure PipeResult where
  exitCode : Nat
  wrote : Bool
  tier1 : Bool
  tier2 : Bool
  tier3 : Bool
  groups : List OptGroup
deriving DecidableEq

/-- The option-extraction control flow of `main` from the point where the spans
and the flattened page text exist: the brand filter may exit early with status 0
(nothing written, no extraction tier invoked); otherwise Tier 1 always runs on
the spans, Tier 2 runs exactly when Tier 1 produced nothing and the flattened
text is non-blank, Tier 3 runs exactly when the result is still empty (its
external OCR text extraction is the `ocrTxt` input, used only when non-empty),
and the ad is then written.  The VIN/title/stock computations of `main` do not
influence these observables and are not modelled here. -/
def mainPipeline (spans : List SpanL) (pageTxt : Str) (ocrTxt : Str) : PipeResult :=
  if stripWs pageTxt ≠ [] ∧ is_allowed_stellantis_brand pageTxt = false then
    ⟨0, false, false, false, false, []⟩
  else
    let g1 := extract_option_groups_from_spans spans
    let g2 := if g1 = [] ∧ stripWs pageTxt ≠ [] then tier2AsGroups pageTxt else g1
    let g3 := if g2 = [] then
        (if ocrTxt ≠ [] then extract_option_groups_from_ocr ocrTxt else [])
      else g2
    ⟨0, true, true, decide (g1 = [] ∧ stripWs pageTxt ≠ []), decide (g2 = []), g3⟩

/-- Flattened sticker text on which Tier 2 pairs a label with a price. -/
def c1Txt : Str := lit "DODGE RAM 1500\nACCESSOIRES OPTIONNELS\nENSEMBLE REMORQUAGE\n595 $\n"

/-- OCR text whose single group collects thirteen detail lines. -/
def c2Txt : Str :=
  lit "ENSEMBLE A 595 $\n  AA\n  AB\n  AC\n  AD\n  AE\n  AF\n  AG\n  AH\n  AJ\n  AK\n  AL\n  AM\n  AN"

/-- Spans with two identically-titled priced labels under the section anchor. -/
def c4Spans : List SpanL :=
  [⟨lit "ACCESSOIRES OPTIONNELS", 100, 1000, 300, 1010, 0⟩,
   ⟨lit "ENSEMBLE A", 260, 500, 400, 510, 0⟩,
   ⟨lit "595 $", 460, 500, 500, 510, 0⟩,
   ⟨lit "ENSEMBLE A", 260, 400, 400, 410, 0⟩,
   ⟨lit "795 $", 460, 400, 500, 410, 0⟩]

/-- Noisy text whose noise contains an earlier 17-character VIN-alphabet run
before the embedded VIN. -/
def c5Txt : Str := lit "ZZZZZZZZZZZZZZZZZ 1C6RR7LG5NS241151"

/-- Two anchor occurrences (y0 = 100 and y0 = 500) with a priced label below
both (y0 = 50). -/
def c6Spans : List SpanL :=
  [⟨lit "ACCESSOIRES OPTIONNELS", 100, 100, 300, 110, 0⟩,
   ⟨lit "ACCESSOIRES OPTIONNELS", 100, 500, 300, 510, 0⟩,
   ⟨lit "ENSEMBLE X", 260, 50, 400, 60, 0⟩,
   ⟨lit "595 $", 460, 50, 500, 60, 0⟩]

theorem strStarts_iff (p : Str) : ∀ s, strStarts p s = true ↔ ∃ t, s = p ++ t := by
  induction p with
  | nil => intro s; simp [strStarts]
  | cons a ps ih =>
    intro s
    cases s with
    | nil => simp [strStarts]
    | cons c cs =>
      simp only [strStarts, Bool.and_eq_true, decide_eq_true_eq, ih]
      constructor
      · rintro ⟨rfl, t, rfl⟩; exact ⟨t, rfl⟩
      · rintro ⟨t, h⟩
        injection h with h1 h2
        exact ⟨h1.symm, t, h2⟩

theorem containsStr_iff (p : Str) : ∀ s, containsStr p s = true ↔ ∃ u t, s = u ++ p ++ t := by
  intro s
  induction s with
  | nil =>
    simp only [containsStr, strStarts_iff]
    constructor
    · rintro ⟨t, h⟩; exact ⟨[], t, by simpa using h⟩
    · rintro ⟨u, t, h⟩
      have h1 := List.append_eq_nil.mp h.symm
      have h2 := List.append_eq_nil.mp h1.1
      exact ⟨[], by simp [h2.2]⟩
  | cons c cs ih =>
    simp only [containsStr, Bool.or_eq_true, strStarts_iff, ih]
    constructor
    · rintro (⟨t, h⟩ | ⟨u, t, h⟩)
      · exact ⟨[], t, by simpa using h⟩
      · exact ⟨c :: u, t, by simp [h]⟩
    · rintro ⟨u, t, h⟩
      cases u with
      | nil => exact Or.inl ⟨t, by simpa using h⟩
      | cons b u' =>
        injection h with h1 h2
        exact Or.inr ⟨u', t, h2⟩

theorem containsStr_of_append_left {a b s : Str}
    (h : containsStr (a ++ b) s = true) : containsStr a s = true := by
  rw [containsStr_iff] at h ⊢
  rcases h with ⟨u, t, rfl⟩
  exact ⟨u, b ++ t, by simp⟩

theorem pyMaxY0_mem : ∀ (l : List SpanL) (b : SpanL), pyMaxY0 b l = b ∨ pyMaxY0 b l ∈ l := by
  intro l
  induction l with
  | nil => intro b; simp [pyMaxY0]
  | cons s rest ih =>
    intro b
    simp only [pyMaxY0]
    rcases ih (if s.y0 > b.y0 then s else b) with h | h
    · rw [h]
      split
      · exact Or.inr (List.mem_cons_self _ _)
      · exact Or.inl rfl
    · exact Or.inr (List.mem_cons_of_mem _ h)

theorem pyMaxY0_ge : ∀ (l : List SpanL) (b x : SpanL),
    (x = b ∨ x ∈ l) → x.y0 ≤ (pyMaxY0 b l).y0 := by
  intro l
  induction l with
  | nil =>
    rintro b x (rfl | h)
    · simp [pyMaxY0]
    · simp at h
  | cons s rest ih =>
    rintro b x (rfl | h)
    · refine le_trans ?_ (ih _ _ (Or.inl rfl))
      split
      · rename_i hgt; exact le_of_lt hgt
      · exact le_rfl
    · rw [List.mem_cons] at h
      rcases h with rfl | h
      · refine le_trans ?_ (ih _ _ (Or.inl rfl))
        split
        · exact le_rfl
        · rename_i hgt; exact le_of_not_lt hgt
      · exact ih _ _ (Or.inr h)

theorem bandCollect_mem_rt (aY : ℤ) :
    ∀ (l : List SpanL) (x : SpanL), x ∈ (bandCollect aY l).1 → x.y0 ≤ aY := by
  intro l
  induction l with
  | nil => intro x hx; simp [bandCollect] at hx
  | cons sp rest ih =>
    intro x hx
    simp only [bandCollect] at hx
    split at hx
    · exact ih x hx
    · rename_i hy
      split at hx
      · exact ih x hx
      · split at hx
        · rw [List.mem_cons] at hx
          rcases hx with rfl | hx
          · exact le_of_not_lt hy
          · exact ih x hx
        · exact ih x hx

theorem bandCollect_mem_ps (aY : ℤ) :
    ∀ (l : List SpanL) (pr : ℤ × Str), pr ∈ (bandCollect aY l).2 → pr.1 ≤ aY := by
  intro l
  induction l with
  | nil => intro pr hpr; simp [bandCollect] at hpr
  | cons sp rest ih =>
    intro pr hpr
    simp only [bandCollect] at hpr
    split at hpr
    · exact ih pr hpr
    · rename_i hy
      split at hpr
      · exact ih pr hpr
      · dsimp only at hpr
        split at hpr
        · split at hpr
          · rw [List.mem_cons] at hpr
            rcases hpr with rfl | hpr
            · exact le_of_not_lt hy
            · exact ih pr hpr
          · exact ih pr hpr
        · exact ih pr hpr

theorem postFilterT1_eq_filter : ∀ gs : List OptGroup, postFilterT1 gs = gs.filter keepTitle := by
  intro gs
  induction gs with
  | nil => rfl
  | cons g rest ih =>
    by_cases h : keepTitle g
    · simp [postFilterT1, List.filter_cons, h, ih]
    · simp [postFilterT1, List.filter_cons, h, ih]

theorem dedupGroups_subset : ∀ (gs : List OptGroup) (seen : List Str),
    ∀ g ∈ dedupGroups seen gs, g ∈ gs := by
  intro gs
  induction gs with
  | nil => intro seen g h; simp [dedupGroups] at h
  | cons x rest ih =>
    intro seen g h
    simp only [dedupGroups] at h
    split at h
    · rw [List.mem_cons] at h
      rcases h with rfl | h
      · exact List.mem_cons_self _ _
      · exact List.mem_cons_of_mem _ (ih _ _ h)
    · exact List.mem_cons_of_mem _ (ih _ _ h)

theorem isWs_not_digit {c : Char} (h : isWs c = true) : c.isDigit = false := by
  simp only [isWs, Bool.or_eq_true, decide_eq_true_eq] at h
  rcases h with ((((((rfl | rfl) | rfl) | rfl) | rfl) | rfl) | rfl) <;> decide

theorem hasDigit_wsToSpace (s : Str) : hasDigit (wsToSpace s) = hasDigit s := by
  unfold hasDigit wsToSpace
  rw [List.any_map]
  congr 1
  funext c
  by_cases h : isWs c = true
  · simp [Function.comp, h, isWs_not_digit h]
  · simp [Function.comp, h]

theorem hasDigit_squeeze : ∀ s, hasDigit (squeeze s) = hasDigit s
  | [] => rfl
  | [_] => rfl
  | a :: b :: rest => by
    simp only [squeeze]
    split
    · rename_i h
      simp only [Bool.and_eq_true, decide_eq_true_eq] at h
      rw [hasDigit_squeeze (b :: rest)]
      obtain ⟨rfl, rfl⟩ := h
      simp [hasDigit]
    · simp only [hasDigit, List.any_cons]
      have := hasDigit_squeeze (b :: rest)
      simp only [hasDigit] at this
      rw [this]
      simp [List.any_cons]

theorem hasDigit_dropWhileWs (s : Str) : hasDigit (s.dropWhile isWs) = hasDigit s := by
  induction s with
  | nil => rfl
  | cons c rest ih =>
    by_cases h : isWs c = true
    · simp [List.dropWhile_cons, h, hasDigit, isWs_not_digit h] at *
      exact ih
    · simp [List.dropWhile_cons, h]

theorem hasDigit_reverse (s : Str) : hasDigit s.reverse = hasDigit s := by
  unfold hasDigit
  rw [Bool.eq_iff_iff]
  simp only [List.any_eq_true, List.mem_reverse]

theorem hasDigit_stripWs (s : Str) : hasDigit (stripWs s) = hasDigit s := by
  unfold stripWs dropTrailWs
  rw [hasDigit_reverse, hasDigit_dropWhileWs, hasDigit_reverse, hasDigit_dropWhileWs]

theorem hasDigit_normalize (s : Str) : hasDigit (normalize s) = hasDigit s := by
  unfold normalize
  rw [hasDigit_stripWs, hasDigit_squeeze, hasDigit_wsToSpace]

theorem findNum_isSome (s : Str) (h : hasDigit s = true) : (findNum s).isSome = true := by
  induction s with
  | nil => simp [hasDigit] at h
  | cons c rest ih =>
    simp only [hasDigit, List.any_cons, Bool.or_eq_true] at h
    simp only [findNum]
    by_cases hc : c.isDigit = true
    · simp [hc]
    · have hr : hasDigit rest = true := by
        rcases h with h | h
        · exact absurd h (by simpa using hc)
        · exact h
      rw [if_neg (by simpa using hc)]
      split
      · cases hD : (rest.dropWhile isWs).head? with
        | none => simp [hD, ih hr]
        | some d =>
          simp only [hD]
          by_cases hd : d.isDigit = true
          · simp [hd]
          · simp [hd, ih hr]
      · exact ih hr

theorem takeDigitsUpTo_cons_digit (n : Nat) (c : Char) (rest : Str) (hc : c.isDigit = true) :
    takeDigitsUpTo (n + 1) (c :: rest) =
      (c :: (takeDigitsUpTo n rest).1, (takeDigitsUpTo n rest).2) := by
  simp [takeDigitsUpTo, hc]

theorem numParseAt_eq (s : Str) :
    numParseAt s =
      ((takeDigitsUpTo 3 s).1 ++ (repsParse (takeDigitsUpTo 3 s).2).1 ++
        (decParse (repsParse (takeDigitsUpTo 3 s).2).2).1,
       (decParse (repsParse (takeDigitsUpTo 3 s).2).2).2) := by
  unfold numParseAt
  rcases h1 : takeDigitsUpTo 3 s with ⟨d1, r1⟩
  rcases h2 : repsParse r1 with ⟨rp, r2⟩
  rcases h3 : decParse r2 with ⟨dc, r3⟩
  simp [h1, h2, h3]

theorem numParseAt_hasDigit (c : Char) (rest : Str) (hc : c.isDigit = true) :
    hasDigit (numParseAt (c :: rest)).1 = true := by
  rw [numParseAt_eq]
  rw [takeDigitsUpTo_cons_digit 2 c rest hc]
  simp [hasDigit, hc]

theorem findNum_hasDigit : ∀ (s g : Str), findNum s = some g → hasDigit g = true := by
  intro s
  induction s with
  | nil => intro g h; simp [findNum] at h
  | cons c rest ih =>
    intro g h
    simp only [findNum] at h
    split at h
    · rename_i hc
      injection h with h
      rw [← h]
      exact numParseAt_hasDigit c rest hc
    · split at h
      · cases hE : rest.dropWhile isWs with
        | nil =>
          rw [hE] at h
          simp only [List.head?] at h
          exact ih g h
        | cons d tail =>
          rw [hE] at h
          simp only [List.head?] at h
          split at h
          · rename_i hd
            injection h with h
            rw [← h]
            exact numParseAt_hasDigit d tail hd
          · exact ih g h
      · exact ih g h

theorem extract_price_isSome (s : Str) (h : hasDigit s = true) :
    (extract_price s).isSome = true := by
  unfold extract_price
  have h1 : hasDigit (normalize s) = true := by rw [hasDigit_normalize]; exact h
  have h2 := findNum_isSome (normalize s) h1
  cases hF : findNum (normalize s) with
  | none => rw [hF] at h2; simp at h2
  | some g =>
    have hg := findNum_hasDigit _ _ hF
    have hg' : hasDigit (normalize g) = true := by rw [hasDigit_normalize]; exact hg
    obtain ⟨d, hd, hdig⟩ := List.any_eq_true.mp hg'
    have hne : d ≠ ' ' := by
      intro hsp
      subst hsp
      simp at hdig
    have hmem : d ∈ (normalize g).filter (fun c => c ≠ ' ') := by
      rw [List.mem_filter]
      exact ⟨hd, by simpa using hne⟩
    have hraw : (normalize g).filter (fun c => c ≠ ' ') ≠ [] := List.ne_nil_of_mem hmem
    simp [hF, hraw]
    exact ⟨d, hd, hne⟩

set_option maxHeartbeats 1600000 in
theorem tier1Scan_price :
    ∀ (items : List SpanL) (prices : List (ℤ × Str)) (cur : Option OptGroup),
    (∀ g0, cur = some g0 → g0.price.isSome = true) →
    ∀ g ∈ tier1Scan prices items cur, g.price.isSome = true := by
  intro items
  induction items with
  | nil =>
    intro prices cur hcur g hg
    cases cur with
    | none => simp [tier1Scan, flushCur] at hg
    | some g0 =>
      simp only [tier1Scan, flushCur, List.mem_singleton] at hg
      subst hg
      exact hcur _ rfl
  | cons sp rest ih =>
    intro prices cur hcur g hg
    cases cur with
    | none =>
      simp only [tier1Scan] at hg
      split at hg
      · exact ih prices none hcur g hg
      · split at hg
        · exact ih prices none hcur g hg
        · split at hg
          · exact ih prices none hcur g hg
          · split at hg
            · exact ih prices none hcur g hg
            · split at hg
              · simp [flushCur] at hg
              · split at hg
                · simp only [flushCur, List.nil_append] at hg
                  refine ih prices _ ?_ g hg
                  intro g1 h1
                  injection h1 with h1
                  rw [← h1]
                  rfl
                · exact ih prices none hcur g hg
    | some g0 =>
      have hg0 : g0.price.isSome = true := hcur g0 rfl
      simp only [tier1Scan] at hg
      split at hg
      · exact ih prices (some g0) hcur g hg
      · split at hg
        · exact ih prices (some g0) hcur g hg
        · split at hg
          · exact ih prices (some g0) hcur g hg
          · split at hg
            · exact ih prices (some g0) hcur g hg
            · split at hg
              · simp only [flushCur, List.mem_singleton] at hg
                subst hg
                exact hg0
              · split at hg
                · simp only [flushCur, List.singleton_append, List.mem_cons] at hg
                  rcases hg with rfl | hg
                  · exact hg0
                  · refine ih prices _ ?_ g hg
                    intro g1 h1
                    injection h1 with h1
                    rw [← h1]
                    rfl
                · split at hg
                  · exact ih prices _ (fun g1 h1 => by
                      injection h1 with h1; rw [← h1]; exact hg0) g hg
                  · split at hg
                    · exact ih prices _ (fun g1 h1 => by
                        injection h1 with h1; rw [← h1]; exact hg0) g hg
                    · split at hg
                      · exact ih prices _ (fun g1 h1 => by
                          injection h1 with h1; rw [← h1]; exact hg0) g hg
                      · exact ih prices _ (fun g1 h1 => by
                          injection h1 with h1; rw [← h1]; exact hg0) g hg

theorem ocrScan_price :
    ∀ (items : List (Str × Nat)) (cur : Option OptGroup),
    (∀ g0, cur = some g0 → g0.price.isSome = true) →
    ∀ g ∈ ocrScan cur items, g.price.isSome = true := by
  intro items
  induction items with
  | nil =>
    intro cur hcur g hg
    cases cur with
    | none => simp [ocrScan, flushCur] at hg
    | some g0 =>
      simp only [ocrScan, flushCur, List.mem_singleton] at hg
      subst hg
      exact hcur _ rfl
  | cons lp rest ih =>
    obtain ⟨ln, ind⟩ := lp
    intro cur hcur g hg
    cases cur with
    | none =>
      simp only [ocrScan] at hg
      split at hg
      · simp [flushCur] at hg
      · split at hg
        · rename_i hdig
          split at hg
          · exact ih none hcur g hg
          · split at hg
            · exact ih none hcur g hg
            · split at hg
              · exact ih none hcur g hg
              · split at hg
                · exact ih none hcur g hg
                · simp only [flushCur, List.nil_append] at hg
                  refine ih _ ?_ g hg
                  intro g1 h1
                  injection h1 with h1
                  rw [← h1]
                  exact extract_price_isSome ln hdig
        · exact ih none hcur g hg
    | some g0 =>
      have hg0 : g0.price.isSome = true := hcur g0 rfl
      simp only [ocrScan] at hg
      split at hg
      · simp only [flushCur, List.mem_singleton] at hg
        subst hg
        exact hg0
      · split at hg
        · rename_i hdig
          split at hg
          · exact ih (some g0) hcur g hg
          · split at hg
            · exact ih (some g0) hcur g hg
            · split at hg
              · exact ih (some g0) hcur g hg
              · split at hg
                · exact ih (some g0) hcur g hg
                · simp only [flushCur, List.singleton_append, List.mem_cons] at hg
                  rcases hg with rfl | hg
                  · exact hg0
                  · refine ih _ ?_ g hg
                    intro g1 h1
                    injection h1 with h1
                    rw [← h1]
                    exact extract_price_isSome ln hdig
        · split at hg
          · exact ih (some g0) hcur g hg
          · split at hg
            · exact ih (some g0) hcur g hg
            · split at hg
              · exact ih (some g0) hcur g hg
              · split at hg
                · exact ih (some g0) hcur g hg
                · split at hg
                  · exact ih _ (fun g1 h1 => by
                      injection h1 with h1; rw [← h1]; exact hg0) g hg
                  · exact ih (some g0) hcur g hg

theorem tier1Scan_skip :
    ∀ (pre : List SpanL) (prices : List (ℤ × Str)) (rest : List SpanL),
    (∀ sp ∈ pre, nearest_price prices sp.y0 = none ∧
        is_hard_stop_detail (clean_option_line sp.text) = false) →
    tier1Scan prices (pre ++ rest) none = tier1Scan prices rest none := by
  intro pre
  induction pre with
  | nil => intro prices rest _; rfl
  | cons sp pre' ih =>
    intro prices rest hp
    have hsp := hp sp (List.mem_cons_self _ _)
    have hrest := fun x hx => hp x (List.mem_cons_of_mem _ hx)
    rw [List.cons_append]
    simp only [tier1Scan, hsp.1, hsp.2]
    simp only [Bool.false_eq_true, if_false, ite_self]
    exact ih prices rest hrest

theorem ocrScan_skip :
    ∀ (pre rest : List (Str × Nat)),
    (∀ lp ∈ pre, hasDigit lp.1 = false ∧ is_hard_stop_detail lp.1 = false) →
    ocrScan none (pre ++ rest) = ocrScan none rest := by
  intro pre
  induction pre with
  | nil => intro rest _; rfl
  | cons lp pre' ih =>
    obtain ⟨ln, ind⟩ := lp
    intro rest hp
    have hsp := hp (ln, ind) (List.mem_cons_self _ _)
    have hrest := fun x hx => hp x (List.mem_cons_of_mem _ hx)
    rw [List.cons_append]
    simp only at hsp
    simp only [ocrScan, hsp.1, hsp.2]
    simp only [Bool.false_eq_true, if_false, ite_self]
    exact ih rest hrest

theorem zip_getQ : ∀ (l1 l2 : List Str) (i : Nat), i < min l1.length l2.length →
    ∃ a b, l1[i]? = some a ∧ l2[i]? = some b ∧ (List.zip l1 l2)[i]? = some (a, b) := by
  intro l1
  induction l1 with
  | nil => intro l2 i h; simp at h
  | cons x l1' ih =>
    intro l2 i h
    cases l2 with
    | nil => simp at h
    | cons y l2' =>
      cases i with
      | zero => exact ⟨x, y, by simp, by simp, by simp⟩
      | succ n =>
        simp only [List.length_cons, Nat.succ_min_succ] at h
        obtain ⟨a, b, h1, h2, h3⟩ := ih l2' n (Nat.lt_of_succ_lt_succ h)
        exact ⟨a, b, by simpa using h1, by simpa using h2, by simpa using h3⟩

theorem vin17Search_valid : ∀ (s : Str) (prev : Option Char) (w : Str),
    vin17Search prev s = some w → w.length = 17 ∧ ∀ c ∈ w, vinChar c = true := by
  intro s
  induction s with
  | nil => intro prev w h; simp [vin17Search] at h
  | cons c rest ih =>
    intro prev w h
    simp only [vin17Search] at h
    split at h
    · rename_i hcond
      injection h with h
      simp only [vin17At, Bool.and_eq_true, decide_eq_true_eq] at hcond
      obtain ⟨-, ⟨hlen, hall⟩, -⟩ := hcond
      subst h
      exact ⟨hlen, fun x hx => List.all_eq_true.mp hall x hx⟩
    · exact ih _ w h

theorem vinScan_valid : ∀ s : Str, vinScan s = [] ∨
    ((vinScan s).length = 17 ∧ ∀ c ∈ vinScan s, vinChar c = true) := by
  intro s
  induction s with
  | nil => left; rfl
  | cons c rest ih =>
    simp only [vinScan]
    split
    · rename_i hcond
      right
      simp only [Bool.and_eq_true, decide_eq_true_eq] at hcond
      obtain ⟨⟨hlen, hall⟩, -⟩ := hcond
      exact ⟨hlen, fun x hx => List.all_eq_true.mp hall x hx⟩
    · exact ih

set_option maxRecDepth 100000 in
set_option maxHeartbeats 4000000 in
/-- C1: the never-leak-price invariant fails on the code.  On the flattened
text `c1Txt` the Tier-2 fallback pairs the accessory label with its price
inside the returned string, `main` wraps those strings as group titles, and
the ad rendered by `build_ad` then contains the monetary substring `595 $`
that was paired with the optional accessory during extraction. -/
theorem claim_C1_tier2_price_reaches_ad :
    (mainPipeline [] c1Txt []).groups = tier2AsGroups c1Txt ∧
    tier2AsGroups c1Txt = [⟨lit "ENSEMBLE REMORQUAGE (595 $)", none, []⟩] ∧
    containsStr (lit "595 $")
      (build_ad (lit "RAM 1500 2022") (lit "31 995 $") (lit "120 000 km") (lit "06213")
        (lit "1C6RR7LG5NS241151") (tier2AsGroups c1Txt) false
        (lit "Kennebec Dodge Chrysler — Saint-Georges (Beauce)") [] [] []) = true := by
  decide

/-- C2 counterexample: the OCR tier does not truncate the per-group details
list to 12 — on `c2Txt` it returns a group with thirteen details, so the claim
"every returned group's details list has length at most 12 before the Ad
Renderer is applied" is false. -/
theorem claim_C2_counterexample :
    ¬ (∀ g ∈ extract_option_groups_from_ocr c2Txt, g.details.length ≤ 12) := by
  decide

/-- C2 amended: every extraction tier returns at most 12 option groups; the
details lists are left untruncated by extraction (the renderer, not the
extractor, caps the details it prints per group). -/
theorem claim_C2_amended : ∀ (spans : List SpanL) (txt otxt : Str),
    (extract_option_groups_from_spans spans).length ≤ 12 ∧
    (extract_paid_options_from_text txt).length ≤ 12 ∧
    (tier2AsGroups txt).length ≤ 12 ∧
    (extract_option_groups_from_ocr otxt).length ≤ 12 := by
  intro spans txt otxt
  have h2 : (extract_paid_options_from_text txt).length ≤ 12 := by
    rw [extract_paid_options_from_text]
    cases hA : anchorAfter ((splitLines txt).map normalize) with
    | none => simp [hA]
    | some rest =>
      simp only [hA]
      rcases hT : tier2Collect rest with ⟨ls, ps⟩
      simp only [hT]
      exact List.length_take_le _ _
  refine ⟨?_, h2, ?_, ?_⟩
  · rw [extract_option_groups_from_spans]
    split
    · simp
    · exact List.length_take_le _ _
  · simpa [tier2AsGroups, List.length_map] using h2
  · rw [extract_option_groups_from_ocr]
    exact List.length_take_le _ _

/-- C3 counterexample: with empty spans and blank flattened text, Tier 1 is
attempted and yields zero groups, yet Tier 2 is not attempted (the code guards
it on non-blank text) while Tier 3 is — so "Tier 2 is attempted exactly when
Tier 1 yields zero groups" is false. -/
theorem claim_C3_counterexample :
    extract_option_groups_from_spans ([] : List SpanL) = [] ∧
    (mainPipeline [] [] []).tier1 = true ∧
    (mainPipeline [] [] []).tier2 = false ∧
    (mainPipeline [] [] []).tier3 = true := by
  decide

/-- C3 amended: when the run reaches extraction (blank text or allowed brand),
Tier 1 always runs; Tier 2 runs exactly when Tier 1 yielded zero groups AND
the flattened text is non-blank; when Tier 1 is non-empty neither Tier 2 nor
Tier 3 is invoked and its result is final; Tier 3 runs exactly when the result
after Tiers 1–2 is still empty. -/
theorem claim_C3_amended :
    ∀ (spans : List SpanL) (ptxt otxt : Str),
    (stripWs ptxt = [] ∨ is_allowed_stellantis_brand ptxt = true) →
    ((mainPipeline spans ptxt otxt).tier1 = true ∧
     ((mainPipeline spans ptxt otxt).tier2 = true ↔
        (extract_option_groups_from_spans spans = [] ∧ stripWs ptxt ≠ [])) ∧
     (extract_option_groups_from_spans spans ≠ [] →
        (mainPipeline spans ptxt otxt).tier2 = false ∧
        (mainPipeline spans ptxt otxt).tier3 = false ∧
        (mainPipeline spans ptxt otxt).groups = extract_option_groups_from_spans spans) ∧
     ((mainPipeline spans ptxt otxt).tier3 = true ↔
        (extract_option_groups_from_spans spans = [] ∧
         (stripWs ptxt ≠ [] → tier2AsGroups ptxt = [])))) := by
  intro spans ptxt otxt hok
  have hguard : ¬ (stripWs ptxt ≠ [] ∧ is_allowed_stellantis_brand ptxt = false) := by
    rcases hok with h | h
    · intro hc; exact hc.1 h
    · intro hc; rw [h] at hc; exact absurd hc.2 (by simp)
  simp only [mainPipeline, if_neg hguard]
  by_cases h1 : extract_option_groups_from_spans spans = []
  · by_cases hp : stripWs ptxt = []
    · simp [h1, hp]
    · simp [h1, hp]
  · simp [h1]

/-- C3 amended witness: a concrete run with empty spans and the allowed word
`ram` as flattened text attempts Tier 1 and then Tier 2. -/
theorem claim_C3_amended_witness :
    (mainPipeline [] (lit "ram") []).tier1 = true ∧
    (mainPipeline [] (lit "ram") []).tier2 = true := by
  have h := claim_C3_amended [] (lit "ram") [] (Or.inr (by decide))
  exact ⟨h.1, h.2.1.mpr (by decide)⟩

/-- C4 counterexample: the Tier-1 post-filter performs no deduplication — on
`c4Spans` two accepted labels with the identical title produce two groups whose
titles are case-insensitively identical, so "exactly one group survives" is
false. -/
theorem claim_C4_counterexample :
    (extract_option_groups_from_spans c4Spans).map (fun g => lowerStr g.title) =
      [lit "ensemble a", lit "ensemble a"] := by
  decide

/-- C4 amended: the Tier-1 post-filter keeps every group passing the per-title
condition, preserving order and multiplicity (no case-insensitive
deduplication), and the extractor is exactly this filter followed by the
truncation to 12 groups. -/
theorem claim_C4_amended :
    (∀ (gs : List OptGroup) (g : OptGroup),
       List.count g (postFilterT1 gs) = if keepTitle g then List.count g gs else 0) ∧
    (∀ spans : List SpanL,
       extract_option_groups_from_spans spans = (postFilterT1 (tier1Raw spans)).take 12) := by
  constructor
  · intro gs g
    induction gs with
    | nil => simp [postFilterT1]
    | cons x rest ih =>
      simp only [postFilterT1]
      split
      · rename_i hx
        rw [List.count_cons, List.count_cons, ih]
        by_cases hxg : x = g
        · subst hxg
          simp [hx]
        · simp [hxg]
      · rename_i hx
        rw [ih]
        by_cases hxg : x = g
        · subst hxg
          simp only [Bool.not_eq_true] at hx
          simp [hx]
        · by_cases hk : keepTitle g
          · simp [hk, List.count_cons, hxg]
          · simp [hk]
  · intro spans
    rw [extract_option_groups_from_spans]
    split
    · rename_i h
      subst h
      decide
    · rfl

/-- C5 counterexample: the VIN round-trip is not exact for every noisy
embedding — when the surrounding noise itself contains an earlier 17-character
run over the VIN alphabet, that run is returned instead of the embedded VIN. -/
theorem claim_C5_counterexample :
    containsStr (lit "1C6RR7LG5NS241151") c5Txt = true ∧
    (lit "1C6RR7LG5NS241151").length = 17 ∧
    (∀ c ∈ lit "1C6RR7LG5NS241151", vinChar c = true) ∧
    extract_vin_from_text c5Txt = lit "ZZZZZZZZZZZZZZZZZ" ∧
    extract_vin_from_text c5Txt ≠ lit "1C6RR7LG5NS241151" := by
  decide

/-- C5 amended: `extract_vin_from_text` returns the leftmost candidate of its
search strategy rather than a designated embedded VIN, but every non-empty
result is exactly 17 characters over the alphabet excluding I, O and Q (so any
candidate window containing I/O/Q is rejected), and the concrete dash-chunked
scenario `1C6—RR7LG5NS—241151` round-trips exactly. -/
theorem claim_C5_amended :
    (∀ txt : Str,
       extract_vin_from_text txt = [] ∨
       ((extract_vin_from_text txt).length = 17 ∧
        ∀ c ∈ extract_vin_from_text txt, vinChar c = true)) ∧
    extract_vin_from_text (lit "1C6—RR7LG5NS—241151") = lit "1C6RR7LG5NS241151" := by
  constructor
  · intro txt
    rw [extract_vin_from_text]
    split
    · left; rfl
    · cases hV : vin17Search none (upperStr txt) with
      | some w =>
        simp only [hV]
        exact Or.inr (vin17Search_valid _ _ _ hV)
      | none =>
        simp only [hV]
        cases hM : m2Search none (upperStr txt) with
        | none =>
          simp only [hM]
          exact vinScan_valid _
        | some t =>
          obtain ⟨g1, g2, g3⟩ := t
          simp only [hM]
          split
          · rename_i hcand
            rw [Bool.and_eq_true] at hcand
            obtain ⟨hlen, hIOQ⟩ := hcand
            have hany : ((g1 ++ g2 ++ g3).filter
                (fun c => ('A' ≤ c && c ≤ 'Z') || c.isDigit)).any
                (fun c => c = 'I' || c = 'O' || c = 'Q') = false := by
              simpa using hIOQ
            right
            refine ⟨by simpa using hlen, ?_⟩
            intro c hc
            have hc' := List.mem_filter.mp hc
            have hpf : (decide (c = 'I') || decide (c = 'O') || decide (c = 'Q')) = false := by
              have hp := List.any_eq_false.mp hany c hc
              revert hp
              cases decide (c = 'I') <;> cases decide (c = 'O') <;> cases decide (c = 'Q') <;>
                simp
            simp only [vinChar, hpf, Bool.not_false, Bool.and_true]
            exact hc'.2
          · exact vinScan_valid _
  · decide

/-- C6 counterexample: the Tier-1 anchor is not the lowest-positioned header
span and the bands are not restricted to spans at or above it — on `c6Spans`
the code keeps a priced label lying below both header occurrences (producing
one group), while the claim's lowest-anchor/at-or-above reading produces no
group at all. -/
theorem claim_C6_counterexample :
    claimC6_extract c6Spans = [] ∧
    extract_option_groups_from_spans c6Spans =
      [⟨lit "ENSEMBLE X", some (lit "595 $"), []⟩] ∧
    claimC6_extract c6Spans ≠ extract_option_groups_from_spans c6Spans := by
  decide

/-- C6 amended: when no span contains a section-header phrase Tier 1 returns
zero groups; otherwise the selected anchor is a header span of maximal `y0`
(the greatest vertical coordinate), and both the label band and the price band
are restricted to spans with `y0` at most the anchor's (at or below it). -/
theorem claim_C6_amended : ∀ spans : List SpanL,
    (theAnchor spans = none → extract_option_groups_from_spans spans = []) ∧
    (∀ anc, theAnchor spans = some anc →
       anc ∈ anchorCands spans ∧
       (∀ a ∈ anchorCands spans, a.y0 ≤ anc.y0) ∧
       (∀ sp ∈ (bandCollect anc.y0 spans).1, sp.y0 ≤ anc.y0) ∧
       (∀ pr ∈ (bandCollect anc.y0 spans).2, pr.1 ≤ anc.y0)) := by
  intro spans
  constructor
  · intro h
    rw [extract_option_groups_from_spans]
    split
    · rfl
    · simp [tier1Raw, h, postFilterT1]
  · intro anc h
    have hmax : anc ∈ anchorCands spans ∧ ∀ a ∈ anchorCands spans, a.y0 ≤ anc.y0 := by
      rw [theAnchor] at h
      cases hA : anchorCands spans with
      | nil => rw [hA] at h; simp at h
      | cons a rest =>
        rw [hA] at h
        simp only [Option.some.injEq] at h
        subst h
        constructor
        · rcases pyMaxY0_mem rest a with h' | h'
          · rw [h']; exact List.mem_cons_self _ _
          · exact List.mem_cons_of_mem _ h'
        · intro x hx
          rw [List.mem_cons] at hx
          exact pyMaxY0_ge rest a x hx
    exact ⟨hmax.1, hmax.2,
      fun sp h' => bandCollect_mem_rt _ _ sp h',
      fun pr h' => bandCollect_mem_ps _ _ pr h'⟩

/-- C6 amended witness: on `c6Spans` the anchor is the header span at y0 = 500
and the collected label band lies at or below it. -/
theorem claim_C6_amended_witness :
    (⟨lit "ACCESSOIRES OPTIONNELS", 100, 500, 300, 510, 0⟩ : SpanL) ∈ anchorCands c6Spans ∧
    (∀ sp ∈ (bandCollect 500 c6Spans).1, sp.y0 ≤ 500) := by
  have h := (claim_C6_amended c6Spans).2
    ⟨lit "ACCESSOIRES OPTIONNELS", 100, 500, 300, 510, 0⟩ (by decide)
  exact ⟨h.1, h.2.2.1⟩

/-- C7: in the Tier-2 parser the label queue is first restricted to labels
whose upper-cased form starts with a curated category lead, the unfiltered
queue is used exactly when that restriction is empty, and the chosen labels are
paired strictly by index with the prices up to the shorter length, excess on
either side being dropped. -/
theorem claim_C7_label_filter_and_zip :
    ∀ (txt : Str) (rest labels prices : List Str),
    anchorAfter ((splitLines txt).map normalize) = some rest →
    tier2Collect rest = (labels, prices) →
    labels ≠ [] → prices ≠ [] →
    ((filteredLabels labels = [] → useLabels labels = labels) ∧
     (filteredLabels labels ≠ [] → useLabels labels = filteredLabels labels) ∧
     (∀ lb ∈ filteredLabels labels, ∃ p ∈ keepPres, strStarts p (upperStr lb) = true) ∧
     extract_paid_options_from_text txt =
       (dedupStrs [] (pairLabelsPrices (useLabels labels) prices)).take 12 ∧
     (pairLabelsPrices (useLabels labels) prices).length =
       min (useLabels labels).length prices.length ∧
     (∀ i, i < min (useLabels labels).length prices.length →
        ∃ lb p, (useLabels labels)[i]? = some lb ∧ prices[i]? = some p ∧
          (pairLabelsPrices (useLabels labels) prices)[i]? =
            some (lb ++ lit " (" ++ p ++ lit ")"))) := by
  intro txt rest labels prices hA hT _ _
  refine ⟨?_, ?_, ?_, ?_, ?_, ?_⟩
  · intro h; rw [useLabels, if_pos h]
  · intro h; rw [useLabels, if_neg h]
  · intro lb hlb
    have hmem := (List.mem_filter.mp hlb).2
    obtain ⟨p, hp, hps⟩ := List.any_eq_true.mp hmem
    exact ⟨p, hp, hps⟩
  · rw [extract_paid_options_from_text]
    simp only [hA, hT]
  · simp [pairLabelsPrices, List.length_map, List.length_zip]
  · intro i hi
    obtain ⟨a, b, h1, h2, h3⟩ := zip_getQ (useLabels labels) prices i hi
    refine ⟨a, b, h1, h2, ?_⟩
    simp [pairLabelsPrices, List.getElem?_map, h3]

/-- C7 witness: on the concrete flattened text `c1Txt` the filtered label queue
is used (the label starts with `ENSEMBLE`). -/
theorem claim_C7_label_filter_and_zip_witness :
    useLabels [lit "ENSEMBLE REMORQUAGE"] = filteredLabels [lit "ENSEMBLE REMORQUAGE"] ∧
    extract_paid_options_from_text c1Txt =
      (dedupStrs [] (pairLabelsPrices (useLabels [lit "ENSEMBLE REMORQUAGE"])
        [lit "595 $"])).take 12 := by
  have h := claim_C7_label_filter_and_zip c1Txt
    [lit "ENSEMBLE REMORQUAGE", lit "595 $"] [lit "ENSEMBLE REMORQUAGE"] [lit "595 $"]
    (by decide) (by decide) (by decide) (by decide)
  exact ⟨h.2.1 (by decide), h.2.2.2.1⟩

/-- C8 counterexample: a layout-parse failure is not converted to an empty span
list — `extract_spans_pdfminer` has no exception handler, so the failure
propagates to the caller instead of producing a span list. -/
theorem claim_C8_counterexample :
    ¬ ∃ sps : List SpanL, extract_spans_pdfminer (Except.error ()) 2 = Except.ok sps := by
  rintro ⟨sps, h⟩
  simp [extract_spans_pdfminer] at h

/-- C8 amended: on a successfully parsed document `extract_spans_pdfminer`
returns the normalized span list of the first pages, and a layout-parse
failure propagates unchanged to the caller (it is not converted to `[]`). -/
theorem claim_C8_amended :
    (∀ (pages : List PageLayout) (n : Nat),
       extract_spans_pdfminer (Except.ok pages) n = Except.ok (spansOfDoc pages n)) ∧
    (∀ e : Unit, extract_spans_pdfminer (Except.error e) 2 = Except.error e) :=
  ⟨fun _ _ => rfl, fun _ => rfl⟩

/-- C9: when the flattened text is non-blank and contains none of the allowed
brand substrings (ram, dodge, jeep, chrysler, alfa — the two longer entries of
the source's tuple are subsumed by `alfa`), `main` exits with status 0 before
any option extraction runs and writes no ad output. -/
theorem claim_C9_brand_gate :
    ∀ (spans : List SpanL) (ptxt otxt : Str),
    stripWs ptxt ≠ [] →
    containsStr (lit "ram") (lowerStr ptxt) = false →
    containsStr (lit "dodge") (lowerStr ptxt) = false →
    containsStr (lit "jeep") (lowerStr ptxt) = false →
    containsStr (lit "chrysler") (lowerStr ptxt) = false →
    containsStr (lit "alfa") (lowerStr ptxt) = false →
    mainPipeline spans ptxt otxt = ⟨0, false, false, false, false, []⟩ := by
  intro spans ptxt otxt hne h1 h2 h3 h4 h5
  have halfa2 : containsStr (lit "alfaromeo") (lowerStr ptxt) = false := by
    by_contra hx
    rw [Bool.not_eq_false] at hx
    rw [show lit "alfaromeo" = lit "alfa" ++ lit "romeo" from by decide] at hx
    exact absurd (containsStr_of_append_left hx) (by simp [h5])
  have halfa3 : containsStr (lit "alfa romeo") (lowerStr ptxt) = false := by
    by_contra hx
    rw [Bool.not_eq_false] at hx
    rw [show lit "alfa romeo" = lit "alfa" ++ lit " romeo" from by decide] at hx
    exact absurd (containsStr_of_append_left hx) (by simp [h5])
  have hallow : is_allowed_stellantis_brand ptxt = false := by
    simp [is_allowed_stellantis_brand, allowedBrands, List.any_cons, List.any_nil,
      h1, h2, h3, h4, h5, halfa2, halfa3]
  rw [mainPipeline, if_pos ⟨hne, hallow⟩]

/-- C9 witness: a concrete non-blank non-Stellantis text exits early with
status 0, writing nothing and invoking no tier. -/
theorem claim_C9_brand_gate_witness :
    mainPipeline [] (lit "TOYOTA COROLLA") [] = ⟨0, false, false, false, false, []⟩ :=
  claim_C9_brand_gate [] (lit "TOYOTA COROLLA") [] (by decide) (by decide) (by decide)
    (by decide) (by decide) (by decide)

/-- C10: in Tier 1 and in the OCR tier every group in the output was opened by
a price-bearing title (its `price` field is populated), and a run of unpriced,
non-hard-stop lines before the first priced line is silently discarded: the
scans on such a prefix followed by anything equal the scans on the remainder
alone. -/
theorem claim_C10_details_need_priced_titles :
    (∀ (spans : List SpanL) (g : OptGroup),
       g ∈ extract_option_groups_from_spans spans → g.price.isSome = true) ∧
    (∀ (txt : Str) (g : OptGroup),
       g ∈ extract_option_groups_from_ocr txt → g.price.isSome = true) ∧
    (∀ (pre : List SpanL) (prices : List (ℤ × Str)) (rest : List SpanL),
       (∀ sp ∈ pre, nearest_price prices sp.y0 = none ∧
          is_hard_stop_detail (clean_option_line sp.text) = false) →
       tier1Scan prices (pre ++ rest) none = tier1Scan prices rest none) ∧
    (∀ (pre rest : List (Str × Nat)),
       (∀ lp ∈ pre, hasDigit lp.1 = false ∧ is_hard_stop_detail lp.1 = false) →
       ocrScan none (pre ++ rest) = ocrScan none rest) := by
  refine ⟨?_, ?_, tier1Scan_skip, ocrScan_skip⟩
  · intro spans g hg
    rw [extract_option_groups_from_spans] at hg
    split at hg
    · simp at hg
    · have h1 : g ∈ postFilterT1 (tier1Raw spans) := List.take_subset _ _ hg
      rw [postFilterT1_eq_filter] at h1
      have h2 : g ∈ tier1Raw spans := List.mem_of_mem_filter h1
      rw [tier1Raw] at h2
      cases hA : theAnchor spans with
      | none => rw [hA] at h2; simp at h2
      | some anc =>
        rw [hA] at h2
        dsimp only at h2
        rcases hB : bandCollect anc.y0 spans with ⟨rt, ps⟩
        rw [hB] at h2
        dsimp only at h2
        exact tier1Scan_price _ _ _ (fun g0 h0 => by cases h0) g h2
  · intro txt g hg
    rw [extract_option_groups_from_ocr] at hg
    have h1 := List.take_subset _ _ hg
    have h2 := dedupGroups_subset _ _ _ h1
    exact ocrScan_price _ _ (fun g0 h0 => by cases h0) g h2

/-- C10 witness: the first group extracted from `c4Spans` carries a price, and
a concrete unpriced prefix span is discarded by the Tier-1 scan. -/
theorem claim_C10_details_need_priced_titles_witness :
    ((⟨lit "ENSEMBLE A", some (lit "595 $"), []⟩ : OptGroup)).price.isSome = true ∧
    tier1Scan [] ([⟨lit "X", 260, 50, 300, 60, 0⟩] ++ []) none = tier1Scan [] [] none := by
  constructor
  · exact claim_C10_details_need_priced_titles.1 c4Spans _ (by decide)
  · exact claim_C10_details_need_priced_titles.2.2.1 [⟨lit "X", 260, 50, 300, 60, 0⟩] [] []
      (by decide)

end StickerToAd
